import Mathlib

/-!
# SelfBalancingRobot: Arduino_Communicator/src/main.cpp

A shallow embedding of the balancing controller of main.cpp.

Modelling conventions.
* In the loop i2cTask_iter C++ float and double values are exact rationals (type ℚ): no
  rounding, no NaN, no infinities.  A division whose divisor can be zero returns an Option.
* Float (binary32) rounding is f32.  The command of lines 328-341 is also given with every
  operation rounded to float and the conversion to a 32-bit int (commandWord, controlStep),
  and the conversion of millis() to float is f32 of the reading.
* C++ int values are mathematical integers; the two places where the 32-bit width can be
  seen (negation inside abs, the conversion to the uint32_t parameter of ledcWrite) are
  written with explicit wrap-around.
* The program state is the record of the global variables of main.cpp, together with the
  duty registers of the four LEDC channels and a chronological trace of the mutex, gain
  access and input/output events the code performs.
* Library routines (atan2, the I2C reads, Serial, the display, the MQTT client) are not part
  of the repository: their results are inputs of the model and their calls are trace events.
-/

namespace SelfBalancingRobot

/-! ## Numeric helpers -/

/-- Conversion of a floating value to int: truncation toward zero. -/
def floatToInt (q : ℚ) : Int := Int.tdiv q.num q.den

/-- Arduino abs on a floating value: ((x)>0?(x):-(x)). -/
def absF (x : ℚ) : ℚ := if x > 0 then x else -x

/-- Reduction of an integer to the 32-bit two's-complement range. -/
def wrap32 (x : Int) : Int := (x + 2 ^ 31) % 2 ^ 32 - 2 ^ 31

/-- Arduino abs on an int: ((x)>0?(x):-(x)), the negation taken in 32 bits. -/
def absI (x : Int) : Int := if x > 0 then x else wrap32 (-x)

/-- Conversion of an int to uint32_t. -/
def toUInt32 (x : Int) : Int := x % 2 ^ 32

/-! ## Binary floating point -/

/-- Rounding of a rational to the nearest integer, ties to the even one. -/
def roundHalfEven (y : ℚ) : Int :=
  let f := ⌊y⌋
  if y - f < 1 / 2 then f
  else if y - f > 1 / 2 then f + 1
  else if f % 2 = 0 then f else f + 1

/-- Rounding to the nearest binary floating-point number with p significant bits and least
    quantum 2 ^ qmin, ties to even, the exponent unbounded above. -/
def roundBinary (p : Nat) (qmin : Int) (x : ℚ) : ℚ :=
  if x = 0 then 0
  else
    let k : Int := max (Int.log 2 |x| - ((p : Int) - 1)) qmin
    (roundHalfEven (x / 2 ^ k) : ℚ) * 2 ^ k

/-- The result of a float (binary32) operation whose exact value is x: the nearest float,
    none when that is infinite. -/
def f32 (x : ℚ) : Option ℚ :=
  let y := roundBinary 24 (-149) x
  if |y| < 2 ^ 128 then some y else none

def pwmResolution : Nat := 16
def max_PWM_angle : ℚ := 50
/-- int max_pwm = pow(2,pwmResolution); -/
def max_pwm : Int := floatToInt ((2 : ℚ) ^ pwmResolution)
/-- int min_PWM = 0.2*max_pwm; -/
def min_PWM : Int := floatToInt (0.2 * (max_pwm : ℚ))
/-- float Kp0 = (max_pwm-min_PWM)/max_PWM_angle; -/
def Kp0 : ℚ := ((max_pwm - min_PWM : Int) : ℚ) / max_PWM_angle
/-- The Arduino constant PI, as the literal of Arduino.h. -/
def PI : ℚ := 3.1415926535897932384626433832795

def pwmChannel1_forward : Nat := 0
def pwmChannel1_reverse : Nat := 1
def pwmChannel2_forward : Nat := 2
def pwmChannel2_reverse : Nat := 3
def mqttPublishIntervalMs : Nat := 100

/-! ## Program state -/

/-- struct BalancingGains (lines 63-67). -/
structure BalancingGains where
  Kp : ℚ
  Kd : ℚ
  newGainsAvailable : Bool
deriving DecidableEq, Repr

/-- Observable events, in program order. -/
inductive Ev where
  /-- xSemaphoreTake(gainsMutex, portMAX_DELAY) returned true -/
  | take
  /-- xSemaphoreGive(gainsMutex) -/
  | give
  /-- a read of gains.Kp -/
  | readKp
  /-- a read of gains.Kd -/
  | readKd
  /-- gains.Kp = v -/
  | writeKp (v : ℚ)
  /-- gains.Kd = v -/
  | writeKd (v : ℚ)
  /-- gains.newGainsAvailable = true -/
  | writeFlag
  /-- a Serial.print or Serial.println call -/
  | serialOut
  /-- a call on the SSD1306 display object -/
  | displayOut
  /-- snprintf into the local message buffer -/
  | format
  /-- client.publish -/
  | publish
  /-- ledcWrite(chan, duty) -/
  | ledc (chan : Nat) (duty : Int)
deriving DecidableEq, Repr

/-- Duty registers of the four LEDC channels used by the program. -/
structure Pwm where
  ch0 : Int
  ch1 : Int
  ch2 : Int
  ch3 : Int
deriving DecidableEq, Repr

/-- The global variables of main.cpp, the LEDC registers and the event trace. -/
structure Robot where
  GyroX : ℚ
  GyroY : ℚ
  GyroZ : ℚ
  gyroanglex : ℚ
  GyroX_last : ℚ
  dt : ℚ
  tt : ℚ
  tt_last : ℚ
  mqttGyroX : ℚ
  mqttGyroY : ℚ
  mqttGyroZ : ℚ
  /-- none stands for the non-finite result of 1000.0 / 0 -/
  loopFrequency : Option ℚ
  duty_cycle : Int
  error : ℚ
  anglex : ℚ
  roll : ℚ
  gains : BalancingGains
  pwm : Pwm
  trace : List Ev
deriving DecidableEq, Repr

/-- The state after static initialisation: every global is zero except
    gains = {0.6, 0.0, false}. -/
def Robot.init : Robot :=
  { GyroX := 0, GyroY := 0, GyroZ := 0, gyroanglex := 0, GyroX_last := 0,
    dt := 0, tt := 0, tt_last := 0, mqttGyroX := 0, mqttGyroY := 0, mqttGyroZ := 0,
    loopFrequency := some 0, duty_cycle := 0, error := 0, anglex := 0, roll := 0,
    gains := { Kp := 0.6, Kd := 0.0, newGainsAvailable := false },
    pwm := { ch0 := 0, ch1 := 0, ch2 := 0, ch3 := 0 },
    trace := [] }

/-- Append one event to the trace. -/
def emit (e : Ev) (r : Robot) : Robot := { r with trace := r.trace ++ [e] }

/-! ## Motor drive (lines 164-184) -/

/-- ledcWrite(chan, duty): the duty, converted to uint32_t, is stored in the channel. -/
def ledcWrite (chan : Nat) (duty : Int) (r : Robot) : Robot :=
  let d := toUInt32 duty
  let p := r.pwm
  let p1 : Pwm :=
    match chan with
    | 0 => { p with ch0 := d }
    | 1 => { p with ch1 := d }
    | 2 => { p with ch2 := d }
    | 3 => { p with ch3 := d }
    | _ => p
  emit (Ev.ledc chan d) { r with pwm := p1 }

/-- void motor1(float anglex, int duty_cycle) -/
def motor1 (anglex : ℚ) (duty_cycle : Int) (r : Robot) : Robot :=
  let pwmValue := absI duty_cycle
  if anglex > 180 then
    ledcWrite pwmChannel1_reverse 0 (ledcWrite pwmChannel1_forward pwmValue r)
  else
    ledcWrite pwmChannel1_reverse pwmValue (ledcWrite pwmChannel1_forward 0 r)

/-- void motor2(float anglex, int duty_cycle) -/
def motor2 (anglex : ℚ) (duty_cycle : Int) (r : Robot) : Robot :=
  let pwmValue := absI duty_cycle
  if anglex > 180 then
    ledcWrite pwmChannel2_reverse 0 (ledcWrite pwmChannel2_forward pwmValue r)
  else
    ledcWrite pwmChannel2_reverse pwmValue (ledcWrite pwmChannel2_forward 0 r)

/-! ## The control loop (lines 288-357) -/

/-- What one iteration of i2cTask obtains from outside the program: the value of millis()
    as line 290 stores it in the float tt (a whole number), the three raw gyroscope words
    and the value returned by atan2(AccY, AccZ). -/
structure Sample where
  millis : Nat
  rawGyroX : Int
  rawGyroY : Int
  rawGyroZ : Int
  atan2AccYZ : ℚ
deriving DecidableEq, Repr

/-- Lines 322-323: roll = atan2(AccY, AccZ) + PI; roll = roll * (180 / PI). -/
def Sample.roll (s : Sample) : ℚ := (s.atan2AccYZ + PI) * (180 / PI)

/-- Line 304: GyroX = rawGyroY / 131.0. -/
def Sample.GyroX (s : Sample) : ℚ := (s.rawGyroY : ℚ) / 131

/-- Line 321: the gyro term of the complementary filter. -/
def gyroDelta (GyroX GyroX_last dt : ℚ) : ℚ := ((GyroX - GyroX_last) * dt / 1000) * (180 / PI)

/-- Line 330: min_PWM + (gains.Kp * Kp0 * error) - (gains.Kd * abs(GyroX)), stored in an int. -/
def rawCommand (Kp Kd anglex GyroX : ℚ) : Int :=
  floatToInt ((min_PWM : ℚ) + Kp * Kp0 * absF (180 - anglex) - Kd * absF GyroX)

/-- Lines 333-338: the two saturation tests, in program order. -/
def saturate (duty_cycle : Int) : Int :=
  let d1 := if duty_cycle > max_pwm then max_pwm else duty_cycle
  if d1 < -max_pwm then -max_pwm else d1

/-- One iteration of the while loop of i2cTask. -/
def i2cTask_iter (s : Sample) (r : Robot) : Robot :=
  let tt : ℚ := (s.millis : ℚ)
  let dt : ℚ := tt - r.tt_last
  let GyroY : ℚ := (s.rawGyroX : ℚ) / 131
  let GyroX : ℚ := s.GyroX
  let GyroZ : ℚ := (s.rawGyroZ : ℚ) / 131
  let gyroanglex := gyroDelta GyroX r.GyroX_last dt
  let roll := s.roll
  let anglex := 0.8 * (r.anglex - gyroanglex) + 0.2 * roll
  let error := absF (180 - anglex)
  -- line 330 reads gains.Kp and gains.Kd; no xSemaphoreTake precedes it
  let r1 := emit Ev.readKd (emit Ev.readKp r)
  let duty_cycle := saturate (rawCommand r1.gains.Kp r1.gains.Kd anglex GyroX)
  let r2 := motor2 anglex duty_cycle (motor1 anglex duty_cycle r1)
  { r2 with
    tt := tt, dt := dt, GyroX := GyroX, GyroY := GyroY, GyroZ := GyroZ,
    gyroanglex := gyroanglex, roll := roll, anglex := anglex, error := error,
    duty_cycle := duty_cycle,
    mqttGyroX := GyroX, mqttGyroY := GyroY, mqttGyroZ := GyroZ,
    loopFrequency := if dt = 0 then none else some (1000 / dt),
    tt_last := tt, GyroX_last := GyroX }

/-- The state after the loop has consumed the given samples, first sample first. -/
def i2cTask_run (samples : List Sample) (r : Robot) : Robot :=
  samples.foldl (fun st s => i2cTask_iter s st) r

/-! ## Display refresh (lines 187-215) -/

def xSemaphoreTake (r : Robot) : Robot := emit Ev.take r
def xSemaphoreGive (r : Robot) : Robot := emit Ev.give r
def Serial_print (r : Robot) : Robot := emit Ev.serialOut r
def display_call (r : Robot) : Robot := emit Ev.displayOut r

/-- void updateOLEDDisplay(): every statement between the take and the give, in order.
    xSemaphoreTake with portMAX_DELAY waits until it owns the mutex, so the else branch
    is not reached. -/
def updateOLEDDisplay (r : Robot) : Robot :=
  r |> xSemaphoreTake
    |> Serial_print                      -- "Updating OLED Display - Kp: "
    |> emit Ev.readKp |> Serial_print    -- Serial.print(gains.Kp, 2)
    |> Serial_print                      -- ", Kd: "
    |> emit Ev.readKd |> Serial_print    -- Serial.println(gains.Kd, 2)
    |> display_call                      -- clearDisplay
    |> display_call                      -- display
    |> display_call                      -- setTextSize
    |> display_call                      -- setCursor
    |> display_call                      -- println("GAINS")
    |> display_call                      -- print("Kp: ")
    |> emit Ev.readKp |> display_call    -- println(gains.Kp, 2)
    |> display_call                      -- print("Kd: ")
    |> emit Ev.readKd |> display_call    -- print(gains.Kd, 2)
    |> display_call                      -- display
    |> xSemaphoreGive

/-! ## Tuning messages (lines 218-249) -/

/-- The C function isspace in the default locale. -/
def isspace (c : Char) : Bool :=
  c = ' ' || c = '\t' || c = '\n' || c = '\r' || c.toNat = 11 || c.toNat = 12

/-- Value of a run of decimal digits, most significant first. -/
def digitsVal (ds : List Char) : Nat := ds.foldl (fun a c => 10 * a + (c.toNat - 48)) 0

/-- An optional sign: whether it is a minus, and the input after it. -/
def scanSign (s : List Char) : Bool × List Char :=
  match s with
  | c :: t => if c = '-' then (true, t) else if c = '+' then (false, t) else (false, s)
  | [] => (false, s)

/-- An optional radix point followed by digits: the digits, and the input after them. -/
def scanFraction (s : List Char) : List Char × List Char :=
  match s with
  | c :: t => if c = '.' then t.span Char.isDigit else ([], s)
  | [] => ([], s)

/-- Exponent part of a decimal floating constant: e or E, an optional sign and at least
    one digit.  A malformed exponent is not consumed. -/
def scanExponent (s : List Char) : Int × List Char :=
  match s with
  | c :: t =>
    if c = 'e' || c = 'E' then
      let sg := scanSign t
      let sp := sg.2.span Char.isDigit
      if sp.1 = [] then (0, s)
      else ((if sg.1 then -(digitsVal sp.1 : Int) else (digitsVal sp.1 : Int)), sp.2)
    else (0, s)
  | [] => (0, s)

/-- The decimal subject sequence read by a %f conversion once white space has been skipped:
    optional sign, digits with an optional radix point (at least one digit), optional
    exponent.  Returns the value and the unread input.  The textual forms of infinity,
    NaN and hexadecimal constants denote no rational and are not read. -/
def scanFloat (s : List Char) : Option (ℚ × List Char) :=
  let sg := scanSign s
  let ip := sg.2.span Char.isDigit
  let fp := scanFraction ip.2
  if ip.1 = [] ∧ fp.1 = [] then none
  else
    let ex := scanExponent fp.2
    let m : ℚ := ((digitsVal ip.1 : ℚ) + (digitsVal fp.1 : ℚ) / 10 ^ fp.1.length) * 10 ^ ex.1
    some ((if sg.1 then -m else m), ex.2)

/-- sscanf(s, "%f,%f", &a, &b): the list of the values assigned, in order; its length is
    the number of assignments (a return value of EOF also shows as the empty list). -/
def sscanf_f_comma_f (s : List Char) : List ℚ :=
  match scanFloat (s.dropWhile isspace) with
  | none => []
  | some (a, s1) =>
    match s1 with
    | ',' :: s2 =>
      match scanFloat (s2.dropWhile isspace) with
      | none => [a]
      | some (b, _) => [a, b]
    | _ => [a]

/-- strstr(s, needle) for a one-character needle: the suffix of s that starts at the first
    occurrence, none for NULL. -/
def strstr1 (s : List Char) (c : Char) : Option (List Char) :=
  match s.dropWhile (fun x => x != c) with
  | [] => none
  | t => some t

/-- Lines 231-245 of mqttCallback, reached when sscanf has assigned newKp and newKd: the
    three assignments between take and give, then the display refresh and the four Serial
    prints. -/
def acceptGains (newKp newKd : ℚ) (r : Robot) : Robot :=
  let r1 := xSemaphoreTake r
  let r2 := emit (Ev.writeKp newKp) { r1 with gains := { r1.gains with Kp := newKp } }
  let r3 := emit (Ev.writeKd newKd) { r2 with gains := { r2.gains with Kd := newKd } }
  let r4 := emit Ev.writeFlag { r3 with gains := { r3.gains with newGainsAvailable := true } }
  let r5 := xSemaphoreGive r4
  let r6 := updateOLEDDisplay r5
  r6 |> Serial_print |> Serial_print |> Serial_print |> Serial_print

/-- void mqttCallback(char* topic, byte* payload, unsigned int length), with
    length = payload.length.  The result is none when payloadString[length] lies outside
    char payloadString[100]. -/
def mqttCallback (topic : String) (payload : List Char) (r : Robot) : Option Robot :=
  if topic = "ESP32/gains" then
    if 100 ≤ payload.length then none
    else
      -- strncpy then the terminator: the C string ends at the first NUL byte
      let payloadString := payload.takeWhile (fun c => c != Char.ofNat 0)
      match strstr1 payloadString '[', strstr1 payloadString ']' with
      | some start, some _ =>
        match sscanf_f_comma_f start.tail with
        | [newKp, newKd] => some (acceptGains newKp newKd r)
        | _ => some r
      | _, _ => some r
  else some r

/-! ## Telemetry (lines 261-281) -/

/-- The publishing part of one iteration of MQTTTaskCode, given the value of millis() and
    the local lastPublishTime (both unsigned long, 32 bits); returns the new
    lastPublishTime and the new state. -/
def MQTTTaskCode_publish (now lastPublishTime : Nat) (r : Robot) : Nat × Robot :=
  if (now + 2 ^ 32 - lastPublishTime) % 2 ^ 32 > mqttPublishIntervalMs then
    (now,
      r |> xSemaphoreTake
        |> emit Ev.readKp |> emit Ev.readKd |> emit Ev.format   -- snprintf(..., gains.Kp, gains.Kd)
        |> emit Ev.publish                                      -- client.publish("ESP32/data", msg)
        |> xSemaphoreGive)
  else (lastPublishTime, r)

/-! ## Reading a trace -/

/-- Whether the mutex is held after an event. -/
def heldAfter (held : Bool) (e : Ev) : Bool :=
  match e with
  | Ev.take => true
  | Ev.give => false
  | _ => held

/-- Serial, display and network calls. -/
def Ev.isOutput : Ev → Bool
  | Ev.serialOut => true
  | Ev.displayOut => true
  | Ev.publish => true
  | _ => false

/-- Reads and writes of the fields of the gain record. -/
def Ev.isGainAccess : Ev → Bool
  | Ev.readKp => true
  | Ev.readKd => true
  | Ev.writeKp _ => true
  | Ev.writeKd _ => true
  | Ev.writeFlag => true
  | _ => false

/-- Every event of the trace satisfies p, which is told whether the mutex is held when the
    event happens. -/
def allEv (p : Bool → Ev → Bool) : Bool → List Ev → Bool
  | _, [] => true
  | held, e :: es => p held e && allEv p (heldAfter held e) es

/-- Whether the mutex is held at the end of the trace. -/
def heldAtEnd (held : Bool) (es : List Ev) : Bool := es.foldl heldAfter held

/-- No Serial, display or network call happens while the mutex is held. -/
def noOutputUnderLock (es : List Ev) : Bool := allEv (fun held e => !(held && e.isOutput)) false es

/-- Every Serial, display or network call happens while the mutex is held. -/
def outputOnlyUnderLock (es : List Ev) : Bool := allEv (fun held e => !e.isOutput || held) false es

/-- Every access to a field of the gain record happens while the mutex is held. -/
def gainAccessLocked (es : List Ev) : Bool := allEv (fun held e => !e.isGainAccess || held) false es

/-- While the mutex is held only accesses to the gain record (and the give) happen. -/
def onlyGainAccessUnderLock (es : List Ev) : Bool :=
  allEv (fun held e => !held || e.isGainAccess || e = Ev.give) false es

/-- The events a step appended to the trace of r. -/
def newEvents (r r1 : Robot) : List Ev := r1.trace.drop r.trace.length

/-! ## Decimal numerals: the texts a tuning payload is made of -/

/-- One task: the events it has still to perform and the gain values it has read so far. -/
structure Task where
  prog : List Ev
  seen : List ℚ
deriving DecidableEq, Repr

/-- The gain record, the owner of gainsMutex and the two tasks; the MQTT task is named
    false and the i2c task true. -/
structure Shared where
  gains : BalancingGains
  owner : Option Bool
  mqtt : Task
  i2c : Task
deriving DecidableEq, Repr

def Shared.task (c : Shared) (who : Bool) : Task := if who then c.i2c else c.mqtt

def Shared.setTask (c : Shared) (who : Bool) (t : Task) : Shared :=
  if who then { c with i2c := t } else { c with mqtt := t }

/-- The task who performs its next event, unless it has none left or waits for the mutex. -/
def Shared.step (c : Shared) (who : Bool) : Shared :=
  let t := c.task who
  match t.prog with
  | [] => c
  | e :: rest =>
    let next : Task := { t with prog := rest }
    match e with
    | Ev.take =>
      if c.owner = none then { c.setTask who next with owner := some who } else c
    | Ev.give => { c.setTask who next with owner := none }
    | Ev.readKp => c.setTask who { next with seen := t.seen ++ [c.gains.Kp] }
    | Ev.readKd => c.setTask who { next with seen := t.seen ++ [c.gains.Kd] }
    | Ev.writeKp v => { c.setTask who next with gains := { c.gains with Kp := v } }
    | Ev.writeKd v => { c.setTask who next with gains := { c.gains with Kd := v } }
    | Ev.writeFlag =>
      { c.setTask who next with gains := { c.gains with newGainsAvailable := true } }
    | _ => c.setTask who next

/-- The state after the tasks have taken turns as the schedule says. -/
def Shared.run (c : Shared) (schedule : List Bool) : Shared := schedule.foldl Shared.step c

/-- Both tasks at the start of their code, the mutex free. -/
def Shared.start (g : BalancingGains) (mqttProg i2cProg : List Ev) : Shared :=
  { gains := g, owner := none,
    mqtt := { prog := mqttProg, seen := [] },
    i2c := { prog := i2cProg, seen := [] } }

/-- The events one call of mqttCallback on the gains topic appends to the trace. -/
def mqttEvents (payload : List Char) (r : Robot) : List Ev :=
  match mqttCallback "ESP32/gains" payload r with
  | some r1 => newEvents r r1
  | none => []

/-- The events of updateOLEDDisplay, in order. -/
def oledEvents : List Ev :=
  [Ev.take, Ev.serialOut, Ev.readKp, Ev.serialOut, Ev.serialOut, Ev.readKd, Ev.serialOut,
   Ev.displayOut, Ev.displayOut, Ev.displayOut, Ev.displayOut, Ev.displayOut, Ev.displayOut,
   Ev.readKp, Ev.displayOut, Ev.displayOut, Ev.readKd, Ev.displayOut, Ev.displayOut, Ev.give]

/-! ## Named inputs -/

/-- A sample taken at rest: zero raw rates, accelerometer tilt 190 degrees. -/
def restSample190 (t : Nat) : Sample :=
  { millis := t, rawGyroX := 0, rawGyroY := 0, rawGyroZ := 0, atan2AccYZ := PI / 18 }

/-- A sample whose accelerometer tilt is 200 degrees, with zero raw rates. -/
def tiltSample200 : Sample :=
  { millis := 1000, rawGyroX := 0, rawGyroY := 0, rawGyroZ := 0, atan2AccYZ := PI / 9 }

/-- A sample taken while the body turns at 1 degree per second (raw word 131), with the
    accelerometer tilt at 180 degrees. -/
def turningSample : Sample :=
  { millis := 1000, rawGyroX := 0, rawGyroY := 131, rawGyroZ := 0, atan2AccYZ := 0 }

/-- The next sample, one second later: the body is at rest, the tilt still 180 degrees. -/
def stillSample : Sample :=
  { millis := 2000, rawGyroX := 0, rawGyroY := 0, rawGyroZ := 0, atan2AccYZ := 0 }

/-- A sample read at millis() = 1000, at rest with the accelerometer tilt at 180 degrees. -/
def tickSample : Sample :=
  { millis := 1000, rawGyroX := 0, rawGyroY := 0, rawGyroZ := 0, atan2AccYZ := 0 }

theorem max_pwm_eq : max_pwm = 65536 := by
  norm_num [max_pwm, floatToInt, pwmResolution]

theorem min_PWM_eq : min_PWM = 13107 := by
  rw [min_PWM, max_pwm_eq]
  norm_num [floatToInt]
  rfl

theorem Kp0_eq : Kp0 = 52429 / 50 := by
  rw [Kp0, max_pwm_eq, min_PWM_eq]
  norm_num [max_PWM_angle]

theorem PI_pos : 0 < PI := by norm_num [PI]

theorem floatToInt_of_nonneg {q : ℚ} (h : 0 ≤ q) : floatToInt q = ⌊q⌋ := by
  rw [floatToInt, Rat.floor_def]
  exact Int.tdiv_eq_ediv (Rat.num_nonneg.mpr h) (Int.ofNat_nonneg _)

theorem saturate_eq_clamp (d : Int) :
    saturate d = if d > max_pwm then max_pwm else if d < -max_pwm then -max_pwm else d := by
  have h := max_pwm_eq
  simp only [saturate]
  split_ifs <;> omega

theorem absI_toUInt32 (d : Int) (h1 : -2 ^ 31 ≤ d) (h2 : d < 2 ^ 31) :
    toUInt32 (absI d) = |d| := by
  unfold toUInt32 absI wrap32
  split_ifs with h
  · rw [abs_of_pos h]; omega
  · rw [abs_of_nonpos (by omega)]; omega

theorem toUInt32_zero : toUInt32 0 = 0 := rfl

theorem motor1_pwm (a : ℚ) (d : Int) (r : Robot) :
    (motor1 a d r).pwm =
      if a > 180 then { r.pwm with ch0 := toUInt32 (absI d), ch1 := 0 }
      else { r.pwm with ch0 := 0, ch1 := toUInt32 (absI d) } := by
  unfold motor1
  split_ifs <;> rfl

theorem motor2_pwm (a : ℚ) (d : Int) (r : Robot) :
    (motor2 a d r).pwm =
      if a > 180 then { r.pwm with ch2 := toUInt32 (absI d), ch3 := 0 }
      else { r.pwm with ch2 := 0, ch3 := toUInt32 (absI d) } := by
  unfold motor2
  split_ifs <;> rfl

theorem motor1_trace (a : ℚ) (d : Int) (r : Robot) :
    (motor1 a d r).trace =
      r.trace ++ (if a > 180 then [Ev.ledc 0 (toUInt32 (absI d)), Ev.ledc 1 0]
        else [Ev.ledc 0 0, Ev.ledc 1 (toUInt32 (absI d))]) := by
  unfold motor1
  split_ifs <;> simp [ledcWrite, emit, pwmChannel1_forward, pwmChannel1_reverse, toUInt32_zero]

theorem motor2_trace (a : ℚ) (d : Int) (r : Robot) :
    (motor2 a d r).trace =
      r.trace ++ (if a > 180 then [Ev.ledc 2 (toUInt32 (absI d)), Ev.ledc 3 0]
        else [Ev.ledc 2 0, Ev.ledc 3 (toUInt32 (absI d))]) := by
  unfold motor2
  split_ifs <;> simp [ledcWrite, emit, pwmChannel2_forward, pwmChannel2_reverse, toUInt32_zero]

theorem i2cTask_iter_pwm (s : Sample) (r : Robot) :
    (i2cTask_iter s r).pwm =
      (motor2 (i2cTask_iter s r).anglex (i2cTask_iter s r).duty_cycle
        (motor1 (i2cTask_iter s r).anglex (i2cTask_iter s r).duty_cycle r)).pwm := by
  show (motor2 _ _ (motor1 _ _ (emit Ev.readKd (emit Ev.readKp r)))).pwm = _
  simp only [motor2_pwm, motor1_pwm]
  rfl

/-! ## Float arithmetic on concrete values -/

theorem int_log_eq (x : ℚ) (e : Int) (h1 : (2 : ℚ) ^ e ≤ |x|) (h2 : |x| < 2 ^ (e + 1)) :
    Int.log 2 |x| = e := by
  have hpos : 0 < |x| := lt_of_lt_of_le (by positivity) h1
  have a := (Int.zpow_le_iff_le_log (b := 2) (by norm_num) hpos (x := e)).mp (by exact_mod_cast h1)
  have b := (Int.lt_zpow_iff_log_lt (b := 2) (by norm_num) hpos (x := e + 1)).mp
    (by exact_mod_cast h2)
  omega

theorem roundHalfEven_down (y : ℚ) (f : Int) (h1 : (f : ℚ) ≤ y) (h2 : y - f < 1 / 2) :
    roundHalfEven y = f := by
  have hf : ⌊y⌋ = f := Int.floor_eq_iff.mpr ⟨h1, by linarith⟩
  simp only [roundHalfEven, hf, if_pos h2]

theorem roundHalfEven_up (y : ℚ) (f : Int) (h1 : y - f > 1 / 2) (h2 : y < f + 1) :
    roundHalfEven y = f + 1 := by
  have hf : ⌊y⌋ = f := Int.floor_eq_iff.mpr ⟨by linarith, h2⟩
  simp only [roundHalfEven, hf, if_neg (not_lt.mpr (le_of_lt h1)), if_pos h1]

theorem roundHalfEven_int (f : Int) : roundHalfEven (f : ℚ) = f :=
  roundHalfEven_down _ f le_rfl (by norm_num)

theorem f32_eval (x : ℚ) (e k m : Int) (h1 : (2 : ℚ) ^ e ≤ |x|) (h2 : |x| < 2 ^ (e + 1))
    (hk : k = max (e - 23) (-149)) (hm : roundHalfEven (x / 2 ^ k) = m)
    (hfin : |(m : ℚ) * 2 ^ k| < 2 ^ 128) : f32 x = some ((m : ℚ) * 2 ^ k) := by
  have hx : x ≠ 0 := by
    intro h0
    rw [h0, abs_zero] at h1
    exact absurd h1 (not_le.mpr (by positivity))
  have hr : roundBinary 24 (-149) x = (m : ℚ) * 2 ^ k := by
    simp only [roundBinary, if_neg hx, int_log_eq x e h1 h2]
    norm_num
    rw [← hk, hm]
  simp only [f32, hr, if_pos hfin]

theorem motor1_gains (a : ℚ) (d : Int) (r : Robot) : (motor1 a d r).gains = r.gains := by
  unfold motor1
  split_ifs <;> rfl

theorem motor2_gains (a : ℚ) (d : Int) (r : Robot) : (motor2 a d r).gains = r.gains := by
  unfold motor2
  split_ifs <;> rfl

theorem i2cTask_iter_gains (s : Sample) (r : Robot) : (i2cTask_iter s r).gains = r.gains := by
  show (motor2 _ _ (motor1 _ _ (emit Ev.readKd (emit Ev.readKp r)))).gains = _
  rw [motor2_gains, motor1_gains]
  rfl

theorem i2cTask_iter_anglex (s : Sample) (r : Robot) :
    (i2cTask_iter s r).anglex =
      0.8 * (r.anglex - gyroDelta s.GyroX r.GyroX_last ((s.millis : ℚ) - r.tt_last))
        + 0.2 * s.roll := rfl

theorem i2cTask_run_cons (s : Sample) (l : List Sample) (r : Robot) :
    i2cTask_run (s :: l) r = i2cTask_run l (i2cTask_iter s r) := rfl

theorem i2cTask_run_concat (l : List Sample) (s : Sample) (r : Robot) :
    i2cTask_run (l ++ [s]) r = i2cTask_iter s (i2cTask_run l r) := by
  simp [i2cTask_run, List.foldl_append]

/-- With zero rate in the sample and in GyroX_last, one iteration moves the estimate a
    fifth of the way to the accelerometer tilt. -/
theorem i2cTask_iter_still (s : Sample) (r : Robot) (h0 : r.GyroX_last = 0)
    (hs : s.GyroX = 0) :
    (i2cTask_iter s r).anglex - s.roll = 0.8 * (r.anglex - s.roll) := by
  rw [i2cTask_iter_anglex, h0, hs, gyroDelta]
  ring

theorem i2cTask_run_still (ρ : ℚ) (samples : List Sample) :
    ∀ r : Robot, r.GyroX_last = 0 → (∀ s ∈ samples, Sample.roll s = ρ ∧ Sample.GyroX s = 0) →
      (i2cTask_run samples r).anglex - ρ = 0.8 ^ samples.length * (r.anglex - ρ) ∧
      (i2cTask_run samples r).GyroX_last = 0 ∧
      (i2cTask_run samples r).gains = r.gains := by
  induction samples with
  | nil => intro r h0 _; simp [i2cTask_run, h0]
  | cons s l ih =>
    intro r h0 h
    have hs := h s (List.mem_cons_self s l)
    have hl : ∀ t ∈ l, Sample.roll t = ρ ∧ Sample.GyroX t = 0 :=
      fun t ht => h t (List.mem_cons_of_mem s ht)
    have hg : (i2cTask_iter s r).GyroX_last = 0 := hs.2
    obtain ⟨h1, h2, h3⟩ := ih (i2cTask_iter s r) hg hl
    have hstep := i2cTask_iter_still s r h0 hs.2
    rw [hs.1] at hstep
    refine ⟨?_, h2, ?_⟩
    · rw [i2cTask_run_cons, h1, hstep, List.length_cons, pow_succ]
      ring
    · rw [i2cTask_run_cons, h3, i2cTask_iter_gains]

theorem motor_pwm_both (a : ℚ) (d : Int) (r : Robot) (hlo : -2 ^ 31 ≤ d) (hhi : d < 2 ^ 31) :
    (motor2 a d (motor1 a d r)).pwm =
      (if a > 180 then { ch0 := |d|, ch1 := 0, ch2 := |d|, ch3 := 0 }
       else { ch0 := 0, ch1 := |d|, ch2 := 0, ch3 := |d| }) := by
  simp only [motor1_pwm, motor2_pwm, absI_toUInt32 d hlo hhi]
  by_cases h : a > 180 <;> simp [h]

theorem restSample190_roll (t : Nat) : (restSample190 t).roll = 190 := by
  norm_num [restSample190, Sample.roll, PI]

theorem restSample190_GyroX (t : Nat) : (restSample190 t).GyroX = 0 := by
  norm_num [restSample190, Sample.GyroX]

/-- Claim C2: for every tilt angle and every int duty cycle, a call of motor1 (of motor2)
    writes both channels of its motor: the forward channel gets the absolute value of the
    duty cycle and the reverse channel 0 when the tilt is greater than 180, otherwise
    (exactly 180 included) the forward channel gets 0 and the reverse channel the absolute
    value; so one channel of each pair is zero after every call, and after both calls the two
    motors carry the same direction and magnitude. -/
theorem motor_channels_exclusive (anglex : ℚ) (duty_cycle : Int) (r : Robot)
    (hlo : -2 ^ 31 ≤ duty_cycle) (hhi : duty_cycle < 2 ^ 31) :
    (motor1 anglex duty_cycle r).pwm.ch0 = (if anglex > 180 then |duty_cycle| else 0) ∧
    (motor1 anglex duty_cycle r).pwm.ch1 = (if anglex > 180 then 0 else |duty_cycle|) ∧
    (motor2 anglex duty_cycle r).pwm.ch2 = (if anglex > 180 then |duty_cycle| else 0) ∧
    (motor2 anglex duty_cycle r).pwm.ch3 = (if anglex > 180 then 0 else |duty_cycle|) ∧
    (motor1 anglex duty_cycle r).trace =
      r.trace ++ [Ev.ledc pwmChannel1_forward (if anglex > 180 then |duty_cycle| else 0),
                  Ev.ledc pwmChannel1_reverse (if anglex > 180 then 0 else |duty_cycle|)] ∧
    (motor2 anglex duty_cycle r).trace =
      r.trace ++ [Ev.ledc pwmChannel2_forward (if anglex > 180 then |duty_cycle| else 0),
                  Ev.ledc pwmChannel2_reverse (if anglex > 180 then 0 else |duty_cycle|)] ∧
    ((motor1 anglex duty_cycle r).pwm.ch0 = 0 ∨ (motor1 anglex duty_cycle r).pwm.ch1 = 0) ∧
    ((motor2 anglex duty_cycle r).pwm.ch2 = 0 ∨ (motor2 anglex duty_cycle r).pwm.ch3 = 0) ∧
    (motor2 anglex duty_cycle (motor1 anglex duty_cycle r)).pwm =
      (if anglex > 180 then
        { ch0 := |duty_cycle|, ch1 := 0, ch2 := |duty_cycle|, ch3 := 0 }
       else { ch0 := 0, ch1 := |duty_cycle|, ch2 := 0, ch3 := |duty_cycle| }) := by
  have hab := absI_toUInt32 duty_cycle hlo hhi
  simp only [motor1_pwm, motor2_pwm, motor1_trace, motor2_trace, hab, pwmChannel1_forward,
    pwmChannel1_reverse, pwmChannel2_forward, pwmChannel2_reverse]
  by_cases h : anglex > 180 <;> simp [h]

theorem motor_channels_exclusive_witness :
    (-2 ^ 31 ≤ (-40000 : Int) ∧ (-40000 : Int) < 2 ^ 31) ∧
    (motor1 180 (-40000) Robot.init).pwm.ch0 = (if (180 : ℚ) > 180 then |(-40000 : Int)| else 0) :=
  ⟨by decide, (motor_channels_exclusive 180 (-40000) Robot.init (by decide) (by decide)).1⟩

/-- Claim C5: one iteration of i2cTask sets gyroanglex to
    ((GyroX - GyroX_last) * dt / 1000) * (180 / PI), with GyroX the scaled raw word and
    dt = millis() - tt_last, and sets anglex to 0.8 * (previous anglex - gyroanglex) +
    0.2 * roll; with previous tilt 180, gyro term 0 and roll 200 the new tilt is exactly
    184. -/
theorem complementary_filter_step (s : Sample) (r : Robot) :
    (i2cTask_iter s r).gyroanglex =
      ((s.GyroX - r.GyroX_last) * ((s.millis : ℚ) - r.tt_last) / 1000) * (180 / PI) ∧
    (i2cTask_iter s r).GyroX = (s.rawGyroY : ℚ) / 131 ∧
    (i2cTask_iter s r).dt = (s.millis : ℚ) - r.tt_last ∧
    (i2cTask_iter s r).roll = (s.atan2AccYZ + PI) * (180 / PI) ∧
    (i2cTask_iter s r).anglex =
      0.8 * (r.anglex - (i2cTask_iter s r).gyroanglex) + 0.2 * (i2cTask_iter s r).roll ∧
    (r.anglex = 180 → (i2cTask_iter s r).gyroanglex = 0 → (i2cTask_iter s r).roll = 200 →
      (i2cTask_iter s r).anglex = 184) := by
  refine ⟨rfl, rfl, rfl, rfl, rfl, ?_⟩
  intro h1 h2 h3
  have h : (i2cTask_iter s r).anglex =
      0.8 * (r.anglex - (i2cTask_iter s r).gyroanglex) + 0.2 * (i2cTask_iter s r).roll := rfl
  rw [h, h1, h2, h3]
  norm_num

theorem complementary_filter_step_witness :
    (i2cTask_iter tiltSample200 { Robot.init with anglex := 180 }).anglex = 184 :=
  (complementary_filter_step tiltSample200 { Robot.init with anglex := 180 }).2.2.2.2.2 rfl
    (by norm_num [i2cTask_iter, gyroDelta, tiltSample200, Sample.GyroX, Robot.init])
    (by norm_num [i2cTask_iter, tiltSample200, Sample.roll, PI])

theorem i2cTask_run_last (samples : List Sample) (r : Robot) (h : samples ≠ []) :
    ∃ s ∈ samples, ∃ r0 : Robot, i2cTask_run samples r = i2cTask_iter s r0 := by
  rcases List.eq_nil_or_concat samples with h0 | ⟨l, s, hs⟩
  · exact absurd h0 h
  · rw [List.concat_eq_append] at hs
    subst hs
    exact ⟨s, by simp, i2cTask_run l r, i2cTask_run_concat l s r⟩

/-- The command computed near the set point with the start-up gains. -/
theorem rawCommand_bounds (a : ℚ) (h1 : 180 < a) (h2 : a ≤ 190) :
    13107 ≤ rawCommand 0.6 0.0 a 0 ∧ rawCommand 0.6 0.0 a 0 ≤ 19398 := by
  have habs : absF (180 - a) = a - 180 := by
    unfold absF
    rw [if_neg (by linarith)]
    ring
  have hx : (0 : ℚ) ≤ (min_PWM : ℚ) + 0.6 * Kp0 * absF (180 - a) - 0.0 * absF 0 := by
    rw [habs, min_PWM_eq, Kp0_eq]
    push_cast
    nlinarith
  unfold rawCommand
  rw [floatToInt_of_nonneg hx, habs, min_PWM_eq, Kp0_eq]
  constructor
  · apply Int.le_floor.mpr
    push_cast
    nlinarith
  · have : ⌊((13107 : ℤ) : ℚ) + 0.6 * (52429 / 50) * (a - 180) - 0.0 * absF 0⌋ < 19399 := by
      apply Int.floor_lt.mpr
      push_cast
      nlinarith
    omega

/-- Claim C6: starting from the initial state of the program (anglex = 0, GyroX_last = 0,
    gains Kp = 0.6 and Kd = 0), after any run of at least 14 iterations whose samples all have
    accelerometer tilt 190 degrees and zero angular rate, the duty cycle is positive and lies
    between min_PWM = 13107 and max_pwm = 65536, anglex is greater than 180, and both motors
    are driven forward with that duty cycle. -/
theorem converged_forward_drive (samples : List Sample)
    (hs : ∀ s ∈ samples, Sample.roll s = 190 ∧ Sample.GyroX s = 0)
    (hn : 14 ≤ samples.length) :
    Robot.init.anglex = 0 ∧ Robot.init.GyroX_last = 0 ∧
    Robot.init.gains = { Kp := 0.6, Kd := 0, newGainsAvailable := false } ∧
    min_PWM = 13107 ∧ max_pwm = 65536 ∧
    0 < (i2cTask_run samples Robot.init).duty_cycle ∧
    min_PWM ≤ (i2cTask_run samples Robot.init).duty_cycle ∧
    (i2cTask_run samples Robot.init).duty_cycle ≤ max_pwm ∧
    (i2cTask_run samples Robot.init).anglex > 180 ∧
    (i2cTask_run samples Robot.init).pwm =
      { ch0 := (i2cTask_run samples Robot.init).duty_cycle, ch1 := 0,
        ch2 := (i2cTask_run samples Robot.init).duty_cycle, ch3 := 0 } := by
  obtain ⟨ha, _, hg⟩ := i2cTask_run_still 190 samples Robot.init rfl hs
  have hne : samples ≠ [] := by
    intro h0
    rw [h0] at hn
    simp at hn
  obtain ⟨s, hmem, r0, hrun⟩ := i2cTask_run_last samples Robot.init hne
  -- the estimate after n iterations
  have hpow1 : (0.8 : ℚ) ^ samples.length ≤ 0.8 ^ 14 :=
    pow_le_pow_of_le_one (by norm_num) (by norm_num) hn
  have hpow0 : (0 : ℚ) < 0.8 ^ samples.length := pow_pos (by norm_num) _
  have h14 : (0.8 : ℚ) ^ 14 < 1 / 19 := by norm_num
  have hinit : Robot.init.anglex = 0 := rfl
  rw [hinit] at ha
  have hlo : 180 < (i2cTask_run samples Robot.init).anglex := by nlinarith
  have hhi : (i2cTask_run samples Robot.init).anglex ≤ 190 := by nlinarith
  -- the command of the last iteration
  have hduty : (i2cTask_run samples Robot.init).duty_cycle =
      saturate (rawCommand 0.6 0.0 (i2cTask_run samples Robot.init).anglex 0) := by
    have hgs : (i2cTask_iter s r0).gains = r0.gains := i2cTask_iter_gains s r0
    rw [← hrun, hg] at hgs
    have hd : (i2cTask_iter s r0).duty_cycle =
        saturate (rawCommand r0.gains.Kp r0.gains.Kd (i2cTask_iter s r0).anglex s.GyroX) := rfl
    rw [← hrun, ← hgs, (hs s hmem).2] at hd
    exact hd
  obtain ⟨hb1, hb2⟩ := rawCommand_bounds _ hlo hhi
  have hsat : saturate (rawCommand 0.6 0.0 (i2cTask_run samples Robot.init).anglex 0) =
      rawCommand 0.6 0.0 (i2cTask_run samples Robot.init).anglex 0 := by
    rw [saturate_eq_clamp, max_pwm_eq]
    split_ifs <;> omega
  rw [hsat] at hduty
  have hpwm : (i2cTask_run samples Robot.init).pwm =
      { ch0 := (i2cTask_run samples Robot.init).duty_cycle, ch1 := 0,
        ch2 := (i2cTask_run samples Robot.init).duty_cycle, ch3 := 0 } := by
    have hp := i2cTask_iter_pwm s r0
    rw [← hrun] at hp
    rw [hp, (motor_pwm_both _ _ r0 (by omega) (by omega)), if_pos hlo, abs_of_pos (by omega)]
  refine ⟨rfl, rfl, by norm_num [Robot.init], min_PWM_eq, max_pwm_eq, ?_, ?_, ?_, hlo, hpwm⟩
  · omega
  · rw [min_PWM_eq]; omega
  · rw [max_pwm_eq]; omega

theorem converged_forward_drive_witness :
    (14 ≤ ((List.range 14).map restSample190).length) ∧
    (i2cTask_run ((List.range 14).map restSample190) Robot.init).anglex > 180 :=
  ⟨by simp,
   (converged_forward_drive ((List.range 14).map restSample190)
      (by
        intro s hs
        obtain ⟨t, _, rfl⟩ := List.mem_map.mp hs
        exact ⟨restSample190_roll t, restSample190_GyroX t⟩)
      (by simp)).2.2.2.2.2.2.2.2.1⟩

/-- Claim C7 fails as stated: after one sample taken while the body turns, a run of one
    iteration whose sample has tilt 180 degrees and zero angular rate does not bring the
    distance to 180 down by the factor 0.8, because GyroX_last still holds the rate of the
    sample before the run. -/
theorem filter_contraction_counterexample :
    stillSample.roll = 180 ∧ stillSample.GyroX = 0 ∧
    |(i2cTask_run [stillSample] (i2cTask_iter turningSample Robot.init)).anglex - 180| ≠
      0.8 ^ 1 * |(i2cTask_iter turningSample Robot.init).anglex - 180| := by
  refine ⟨by norm_num [stillSample, Sample.roll, PI], by norm_num [stillSample, Sample.GyroX], ?_⟩
  have h0 : (i2cTask_iter turningSample Robot.init).anglex = 36 - 144 / PI := by
    have hPI := PI_pos
    simp only [i2cTask_iter_anglex, gyroDelta, turningSample, Sample.GyroX, Sample.roll, Robot.init]
    field_simp
    ring
  have h1 : (i2cTask_run [stillSample] (i2cTask_iter turningSample Robot.init)).anglex =
      64.8 + 28.8 / PI := by
    have hPI := PI_pos
    show (i2cTask_iter stillSample (i2cTask_iter turningSample Robot.init)).anglex = _
    rw [i2cTask_iter_anglex, h0]
    have hg : (i2cTask_iter turningSample Robot.init).GyroX_last = 1 := by
      show turningSample.GyroX = 1
      norm_num [turningSample, Sample.GyroX]
    have ht : (i2cTask_iter turningSample Robot.init).tt_last = 1000 := by
      show ((turningSample.millis : ℕ) : ℚ) = 1000
      norm_num [turningSample]
    rw [hg, ht]
    simp only [gyroDelta, stillSample, Sample.GyroX, Sample.roll]
    field_simp
    ring
  rw [h0, h1]
  have hPI : (3 : ℚ) < PI := by norm_num [PI]
  have hinv : 0 < 1 / PI := by positivity
  have hinv2 : 1 / PI < 1 := by
    rw [div_lt_one (by linarith)]
    linarith
  have e1 : (64.8 : ℚ) + 28.8 / PI - 180 = -(115.2 - 28.8 * (1 / PI)) := by ring
  have e2 : (36 : ℚ) - 144 / PI - 180 = -(144 + 144 * (1 / PI)) := by ring
  rw [e1, e2, abs_neg, abs_neg, abs_of_pos (by nlinarith), abs_of_pos (by nlinarith)]
  intro h
  nlinarith

/-- Claim C7, amended: for every run of iterations in which the accelerometer tilt is a
    constant and the angular rate is zero in every sample, and before which GyroX_last is
    zero, the distance of the estimate to that tilt never exceeds the distance at the start;
    when the tilt and the starting estimate lie between 0 and 360 degrees, the distance after
    n iterations is within 0.001 of 0.8 ^ n times the starting distance, and it is at most
    0.002 degrees once 58 iterations have run. -/
theorem filter_contraction (ρ : ℚ) (samples : List Sample) (r : Robot)
    (h0 : r.GyroX_last = 0)
    (hs : ∀ s ∈ samples, Sample.roll s = ρ ∧ Sample.GyroX s = 0) :
    |(i2cTask_run samples r).anglex - ρ| ≤ |r.anglex - ρ| ∧
    (0 ≤ ρ ∧ ρ ≤ 360 → 0 ≤ r.anglex ∧ r.anglex ≤ 360 →
      |(i2cTask_run samples r).anglex - ρ| ≤ 0.8 ^ samples.length * |r.anglex - ρ| + 0.001 ∧
      0.8 ^ samples.length * |r.anglex - ρ| ≤ |(i2cTask_run samples r).anglex - ρ| + 0.001 ∧
      (58 ≤ samples.length → |(i2cTask_run samples r).anglex - ρ| ≤ 0.002)) := by
  have key : |(i2cTask_run samples r).anglex - ρ| = 0.8 ^ samples.length * |r.anglex - ρ| := by
    rw [(i2cTask_run_still ρ samples r h0 hs).1, abs_mul, abs_of_pos (pow_pos (by norm_num) _)]
  have hp1 : (0.8 : ℚ) ^ samples.length ≤ 1 := pow_le_one₀ (by norm_num) (by norm_num)
  have habs := abs_nonneg (r.anglex - ρ)
  refine ⟨?_, ?_⟩
  · rw [key]
    nlinarith
  · intro hρ ha
    have hd : |r.anglex - ρ| ≤ 360 := by
      rw [abs_le]
      constructor <;> linarith [hρ.1, hρ.2, ha.1, ha.2]
    refine ⟨by rw [key]; norm_num, by rw [key]; norm_num, ?_⟩
    intro hn
    rw [key]
    have hpow : (0.8 : ℚ) ^ samples.length ≤ 0.8 ^ 58 :=
      pow_le_pow_of_le_one (by norm_num) (by norm_num) hn
    have h58 : (0.8 : ℚ) ^ 58 * 360 ≤ 0.002 := by norm_num
    have hp0 : (0 : ℚ) ≤ 0.8 ^ samples.length := le_of_lt (pow_pos (by norm_num) _)
    calc (0.8 : ℚ) ^ samples.length * |r.anglex - ρ|
        ≤ 0.8 ^ samples.length * 360 := mul_le_mul_of_nonneg_left hd hp0
      _ ≤ 0.8 ^ 58 * 360 := mul_le_mul_of_nonneg_right hpow (by norm_num)
      _ ≤ 0.002 := h58

theorem filter_contraction_witness :
    (58 ≤ ((List.range 58).map restSample190).length) ∧
    |(i2cTask_run ((List.range 58).map restSample190) Robot.init).anglex - 190| ≤ 0.002 :=
  ⟨by simp,
   ((filter_contraction 190 ((List.range 58).map restSample190) Robot.init rfl
      (by
        intro s hs
        obtain ⟨t, _, rfl⟩ := List.mem_map.mp hs
        exact ⟨restSample190_roll t, restSample190_GyroX t⟩)).2
      (by norm_num) (by norm_num [Robot.init])).2.2 (by simp)⟩

/-- Claim C9 fails as stated: when consecutive iterations read the same value of millis(),
    dt is 0, not at least 1, and the loop frequency 1000.0 / dt is not a finite number. -/
theorem elapsed_time_counterexample :
    (i2cTask_run [tickSample, tickSample] Robot.init).tt_last = 1000 ∧
    (i2cTask_run [tickSample, tickSample, tickSample] Robot.init).tt = 1000 ∧
    (i2cTask_run [tickSample, tickSample, tickSample] Robot.init).dt = 0 ∧
    ¬ (1 ≤ (i2cTask_run [tickSample, tickSample, tickSample] Robot.init).dt) ∧
    (i2cTask_run [tickSample, tickSample, tickSample] Robot.init).loopFrequency = none := by
  have h : (i2cTask_run [tickSample, tickSample, tickSample] Robot.init).dt = 0 := by
    show ((tickSample.millis : ℕ) : ℚ) - ((tickSample.millis : ℕ) : ℚ) = 0
    ring
  refine ⟨?_, ?_, h, ?_, ?_⟩
  · show ((tickSample.millis : ℕ) : ℚ) = 1000
    norm_num [tickSample]
  · show ((tickSample.millis : ℕ) : ℚ) = 1000
    norm_num [tickSample]
  · rw [h]; norm_num
  · show (if ((tickSample.millis : ℕ) : ℚ) - ((tickSample.millis : ℕ) : ℚ) = 0 then none
      else some (1000 / (((tickSample.millis : ℕ) : ℚ) - ((tickSample.millis : ℕ) : ℚ)))) = none
    rw [if_pos (by ring)]

theorem roundHalfEven_tie (y : ℚ) (f : Int) (h : y - f = 1 / 2) (he : f % 2 = 0) :
    roundHalfEven y = f := by
  have hf : ⌊y⌋ = f := Int.floor_eq_iff.mpr ⟨by linarith, by linarith⟩
  have h1 : ¬ (y - f < 1 / 2) := by rw [h]; exact lt_irrefl _
  have h2 : ¬ (y - f > 1 / 2) := by rw [h]; exact lt_irrefl _
  simp only [roundHalfEven, hf, if_neg h1, if_neg h2, if_pos he]

theorem f32_tick_exact : f32 16777216 = some 16777216 := by
  have h := f32_eval 16777216 24 1 8388608 (by norm_num [abs_of_pos])
    (by norm_num [abs_of_pos]) (by norm_num)
    (by have := roundHalfEven_int 8388608; norm_num at this ⊢; exact this)
    (by norm_num [abs_of_pos])
  norm_num at h
  exact h

theorem f32_tick_rounded : f32 16777217 = some 16777216 := by
  have h := f32_eval 16777217 24 1 8388608 (by norm_num [abs_of_pos])
    (by norm_num [abs_of_pos]) (by norm_num)
    (roundHalfEven_tie _ _ (by norm_num) (by norm_num)) (by norm_num [abs_of_pos])
  norm_num at h
  exact h

/-- Claim C9, amended: in every iteration dt is the float tt minus tt_last, with no lower
    bound applied; between two consecutive iterations it is 0 exactly when both store the
    same tt, that is when the two millis() readings convert to the same float: for equal
    readings, and also for the distinct readings 16777216 and 16777217; with dt = 0 the
    gyro term is 0 and the loop frequency 1000.0 / dt is not a finite number. -/
theorem elapsed_time_unclamped (m1 m2 : Nat) (s1 s2 : Sample) (r : Robot)
    (h1 : f32 (m1 : ℚ) = some (s1.millis : ℚ)) (h2 : f32 (m2 : ℚ) = some (s2.millis : ℚ)) :
    ((i2cTask_iter s2 (i2cTask_iter s1 r)).dt = 0 ↔ f32 (m2 : ℚ) = f32 (m1 : ℚ)) ∧
    (m2 = m1 → (i2cTask_iter s2 (i2cTask_iter s1 r)).dt = 0) ∧
    ((i2cTask_iter s2 (i2cTask_iter s1 r)).loopFrequency = none ↔
      (i2cTask_iter s2 (i2cTask_iter s1 r)).dt = 0) ∧
    ((i2cTask_iter s2 (i2cTask_iter s1 r)).dt = 0 →
      (i2cTask_iter s2 (i2cTask_iter s1 r)).gyroanglex = 0) ∧
    f32 16777216 = some 16777216 ∧ f32 16777217 = some 16777216 := by
  have hdt : (i2cTask_iter s2 (i2cTask_iter s1 r)).dt = (s2.millis : ℚ) - (s1.millis : ℚ) := rfl
  have hf : (i2cTask_iter s2 (i2cTask_iter s1 r)).loopFrequency =
      (if (i2cTask_iter s2 (i2cTask_iter s1 r)).dt = 0 then none
       else some (1000 / (i2cTask_iter s2 (i2cTask_iter s1 r)).dt)) := rfl
  have hg : (i2cTask_iter s2 (i2cTask_iter s1 r)).gyroanglex =
      gyroDelta s2.GyroX s1.GyroX (i2cTask_iter s2 (i2cTask_iter s1 r)).dt := rfl
  have hiff : (i2cTask_iter s2 (i2cTask_iter s1 r)).dt = 0 ↔ f32 (m2 : ℚ) = f32 (m1 : ℚ) := by
    rw [hdt, h1, h2, sub_eq_zero]
    constructor
    · intro h; rw [h]
    · intro h; exact Option.some.inj h
  refine ⟨hiff, ?_, ?_, ?_, f32_tick_exact, f32_tick_rounded⟩
  · intro h
    exact hiff.mpr (by rw [h])
  · rw [hf]
    constructor
    · intro h
      by_contra hne
      rw [if_neg hne] at h
      exact absurd h (by simp)
    · intro h
      rw [if_pos h]
  · intro h
    rw [hg, h, gyroDelta]
    ring

theorem elapsed_time_unclamped_witness :
    f32 ((16777216 : Nat) : ℚ) = some (({ tickSample with millis := 16777216 } : Sample).millis : ℚ) ∧
    f32 ((16777217 : Nat) : ℚ) = some (({ tickSample with millis := 16777216 } : Sample).millis : ℚ) ∧
    (i2cTask_iter { tickSample with millis := 16777216 }
      (i2cTask_iter { tickSample with millis := 16777216 } Robot.init)).dt = 0 := by
  have ha : f32 ((16777216 : Nat) : ℚ) =
      some (({ tickSample with millis := 16777216 } : Sample).millis : ℚ) := by
    have := f32_tick_exact
    norm_num at this ⊢
    exact this
  have hb : f32 ((16777217 : Nat) : ℚ) =
      some (({ tickSample with millis := 16777216 } : Sample).millis : ℚ) := by
    have := f32_tick_rounded
    norm_num at this ⊢
    exact this
  exact ⟨ha, hb,
    (elapsed_time_unclamped 16777216 16777217 { tickSample with millis := 16777216 }
      { tickSample with millis := 16777216 } Robot.init ha hb).1.mpr (by rw [ha, hb])⟩

/-! ## Reading a numeral back -/

theorem acceptGains_trace (newKp newKd : ℚ) (r : Robot) :
    (acceptGains newKp newKd r).trace =
      r.trace ++ ([Ev.take, Ev.writeKp newKp, Ev.writeKd newKd, Ev.writeFlag, Ev.give] ++
        oledEvents ++ [Ev.serialOut, Ev.serialOut, Ev.serialOut, Ev.serialOut]) := by
  simp [acceptGains, updateOLEDDisplay, xSemaphoreTake, xSemaphoreGive, Serial_print,
    display_call, emit, oledEvents]

theorem newEvents_append (r r1 : Robot) (es : List Ev) (h : r1.trace = r.trace ++ es) :
    newEvents r r1 = es := by
  unfold newEvents
  rw [h, List.drop_left]

theorem updateOLEDDisplay_trace (r : Robot) :
    (updateOLEDDisplay r).trace = r.trace ++ oledEvents := by
  simp [updateOLEDDisplay, xSemaphoreTake, xSemaphoreGive, Serial_print, display_call, emit,
    oledEvents]

theorem i2cTask_iter_trace (s : Sample) (r : Robot) :
    (i2cTask_iter s r).trace =
      r.trace ++ (Ev.readKp :: Ev.readKd ::
        ((if (i2cTask_iter s r).anglex > 180 then
            [Ev.ledc 0 (toUInt32 (absI (i2cTask_iter s r).duty_cycle)), Ev.ledc 1 0]
          else [Ev.ledc 0 0, Ev.ledc 1 (toUInt32 (absI (i2cTask_iter s r).duty_cycle))]) ++
         (if (i2cTask_iter s r).anglex > 180 then
            [Ev.ledc 2 (toUInt32 (absI (i2cTask_iter s r).duty_cycle)), Ev.ledc 3 0]
          else [Ev.ledc 2 0, Ev.ledc 3 (toUInt32 (absI (i2cTask_iter s r).duty_cycle))]))) := by
  show (motor2 _ _ (motor1 _ _ (emit Ev.readKd (emit Ev.readKp r)))).trace = _
  rw [motor2_trace, motor1_trace]
  simp only [emit, List.append_assoc, List.singleton_append, List.cons_append, List.nil_append]
  rfl

theorem mqttCallback_cases (payload : List Char) (r : Robot) :
    mqttCallback "ESP32/gains" payload r = none ∨
    mqttCallback "ESP32/gains" payload r = some r ∨
    ∃ newKp newKd : ℚ, mqttCallback "ESP32/gains" payload r =
      some (acceptGains newKp newKd r) := by
  unfold mqttCallback
  rw [if_pos rfl]
  split_ifs
  · exact Or.inl rfl
  · simp only
    split
    · split
      · next newKp newKd _ => exact Or.inr (Or.inr ⟨newKp, newKd, rfl⟩)
      · exact Or.inr (Or.inl rfl)
    · exact Or.inr (Or.inl rfl)

theorem mqttEvents_cases (payload : List Char) (r : Robot) :
    mqttEvents payload r = [] ∨
    ∃ newKp newKd : ℚ, mqttEvents payload r =
      [Ev.take, Ev.writeKp newKp, Ev.writeKd newKd, Ev.writeFlag, Ev.give] ++ oledEvents ++
        [Ev.serialOut, Ev.serialOut, Ev.serialOut, Ev.serialOut] := by
  have hself : newEvents r r = [] := newEvents_append r r [] (by simp)
  unfold mqttEvents
  rcases mqttCallback_cases payload r with h | h | ⟨newKp, newKd, h⟩
  · rw [h]; exact Or.inl rfl
  · rw [h]; exact Or.inl hself
  · rw [h]
    exact Or.inr ⟨newKp, newKd, newEvents_append _ _ _ (acceptGains_trace newKp newKd r)⟩

/-- Claim C4, evaluated: the payload ][1,2 holds no bracketed pair (its closing bracket comes
    first and none follows the numbers), yet mqttCallback changes the gain record from
    (0.6, 0, false) to (1, 2, true); the payloads garbage and [1.5] leave the state as it
    was. -/
theorem mqttCallback_accepts_unbracketed :
    Robot.init.gains = { Kp := 0.6, Kd := 0, newGainsAvailable := false } ∧
    (mqttCallback "ESP32/gains" "][1,2".toList Robot.init).map (fun r1 => r1.gains) =
      some { Kp := 1, Kd := 2, newGainsAvailable := true } ∧
    mqttCallback "ESP32/gains" "garbage".toList Robot.init = some Robot.init ∧
    mqttCallback "ESP32/gains" "[1.5]".toList Robot.init = some Robot.init := by
  refine ⟨by norm_num [Robot.init], ?_, ?_, ?_⟩ <;>
  simp [mqttCallback, strstr1, acceptGains, emit, updateOLEDDisplay, xSemaphoreGive,
    xSemaphoreTake, Serial_print, display_call, sscanf_f_comma_f, isspace, scanFloat, scanSign,
    scanFraction, scanExponent, digitsVal, List.span_eq_take_drop, List.takeWhile,
    List.dropWhile, Char.isDigit]

/-- Claim C8, evaluated: the events of every i2cTask iteration begin with the reads of
    gains.Kp and gains.Kd and contain no take of gainsMutex, so these reads are not guarded,
    while every access of mqttCallback is; and when the iteration runs between the two
    assignments of mqttCallback for the payload [2,3], it reads Kp = 2 from that update and
    Kd = 0 from before it. -/
theorem gains_read_without_mutex (s : Sample) (r : Robot) :
    (newEvents r (i2cTask_iter s r)).take 2 = [Ev.readKp, Ev.readKd] ∧
    Ev.take ∉ newEvents r (i2cTask_iter s r) ∧
    gainAccessLocked (newEvents r (i2cTask_iter s r)) = false ∧
    gainAccessLocked (mqttEvents "[2,3]".toList Robot.init) = true ∧
    ((Shared.start Robot.init.gains (mqttEvents "[2,3]".toList Robot.init)
        (newEvents Robot.init (i2cTask_iter tickSample Robot.init))).run
      [false, false, true, true]).i2c.seen = [2, 0] ∧
    ((Shared.start Robot.init.gains (mqttEvents "[2,3]".toList Robot.init)
        (newEvents Robot.init (i2cTask_iter tickSample Robot.init))).run
      [false, false, true, true, false, false, false]).gains =
        { Kp := 2, Kd := 3, newGainsAvailable := true } := by
  have hi := newEvents_append r _ _ (i2cTask_iter_trace s r)
  have hi0 := newEvents_append Robot.init _ _ (i2cTask_iter_trace tickSample Robot.init)
  have hm : mqttEvents "[2,3]".toList Robot.init =
      [Ev.take, Ev.writeKp 2, Ev.writeKd 3, Ev.writeFlag, Ev.give] ++ oledEvents ++
        [Ev.serialOut, Ev.serialOut, Ev.serialOut, Ev.serialOut] := by
    have hc : mqttCallback "ESP32/gains" "[2,3]".toList Robot.init =
        some (acceptGains 2 3 Robot.init) := by
      simp [mqttCallback, strstr1, sscanf_f_comma_f, isspace, scanFloat, scanSign,
        scanFraction, scanExponent, digitsVal, List.span_eq_take_drop, List.takeWhile,
        List.dropWhile, Char.isDigit]
    unfold mqttEvents
    rw [hc]
    exact newEvents_append _ _ _ (acceptGains_trace 2 3 Robot.init)
  have hg : Robot.init.gains = { Kp := 0.6, Kd := 0, newGainsAvailable := false } := by
    norm_num [Robot.init]
  refine ⟨?_, ?_, ?_, ?_, ?_, ?_⟩
  · rw [hi]; rfl
  · rw [hi]; split_ifs <;> simp
  · rw [hi]; rfl
  · rw [hm]; decide
  · rw [hi0, hm, hg]
    simp [Shared.run, Shared.step, Shared.start, Shared.task, Shared.setTask, oledEvents]
  · rw [hi0, hm, hg]
    simp [Shared.run, Shared.step, Shared.start, Shared.task, Shared.setTask, oledEvents]

theorem MQTTTaskCode_publish_trace (now last : Nat) (r : Robot)
    (h : (now + 2 ^ 32 - last) % 2 ^ 32 > mqttPublishIntervalMs) :
    (MQTTTaskCode_publish now last r).2.trace =
      r.trace ++ [Ev.take, Ev.readKp, Ev.readKd, Ev.format, Ev.publish, Ev.give] := by
  unfold MQTTTaskCode_publish
  rw [if_pos h]
  simp [xSemaphoreTake, xSemaphoreGive, emit]

/-- Claim C10 fails as stated: in a publishing iteration of MQTTTaskCode the events are take,
    the two gain reads, snprintf, client.publish and only then give; both there and in
    updateOLEDDisplay output calls happen while the mutex is held. -/
theorem lock_released_before_output_counterexample :
    (101 + 2 ^ 32 - 0) % 2 ^ 32 > mqttPublishIntervalMs ∧
    newEvents Robot.init (MQTTTaskCode_publish 101 0 Robot.init).2 =
      [Ev.take, Ev.readKp, Ev.readKd, Ev.format, Ev.publish, Ev.give] ∧
    noOutputUnderLock (newEvents Robot.init (MQTTTaskCode_publish 101 0 Robot.init).2) = false ∧
    noOutputUnderLock (newEvents Robot.init (updateOLEDDisplay Robot.init)) = false ∧
    onlyGainAccessUnderLock (newEvents Robot.init (MQTTTaskCode_publish 101 0 Robot.init).2)
      = false ∧
    onlyGainAccessUnderLock (newEvents Robot.init (updateOLEDDisplay Robot.init)) = false := by
  decide

/-- Claim C10, amended: in every publishing iteration of MQTTTaskCode the mutex is taken
    before the gains are read and given back only after client.publish, and in every call of
    updateOLEDDisplay it is taken before the first Serial call and given back after the last
    display call, so that every output call and every gain read of these two functions
    happens under the mutex and the mutex is free when they return; in mqttCallback only the
    three assignments to the gain record occur between the take and the matching give. -/
theorem lock_held_across_output (now last : Nat) (payload : List Char) (r : Robot)
    (h : (now + 2 ^ 32 - last) % 2 ^ 32 > mqttPublishIntervalMs) :
    newEvents r (MQTTTaskCode_publish now last r).2 =
      [Ev.take, Ev.readKp, Ev.readKd, Ev.format, Ev.publish, Ev.give] ∧
    outputOnlyUnderLock (newEvents r (MQTTTaskCode_publish now last r).2) = true ∧
    gainAccessLocked (newEvents r (MQTTTaskCode_publish now last r).2) = true ∧
    heldAtEnd false (newEvents r (MQTTTaskCode_publish now last r).2) = false ∧
    newEvents r (updateOLEDDisplay r) = oledEvents ∧
    outputOnlyUnderLock (newEvents r (updateOLEDDisplay r)) = true ∧
    gainAccessLocked (newEvents r (updateOLEDDisplay r)) = true ∧
    heldAtEnd false (newEvents r (updateOLEDDisplay r)) = false ∧
    (mqttEvents payload r = [] ∨
      ∃ newKp newKd : ℚ,
        mqttEvents payload r =
          [Ev.take, Ev.writeKp newKp, Ev.writeKd newKd, Ev.writeFlag, Ev.give] ++
            oledEvents ++ [Ev.serialOut, Ev.serialOut, Ev.serialOut, Ev.serialOut] ∧
        onlyGainAccessUnderLock
          [Ev.take, Ev.writeKp newKp, Ev.writeKd newKd, Ev.writeFlag, Ev.give] = true) := by
  have hp := newEvents_append r _ _ (MQTTTaskCode_publish_trace now last r h)
  have ho := newEvents_append r _ _ (updateOLEDDisplay_trace r)
  rw [hp, ho]
  refine ⟨rfl, by decide, by decide, by decide, rfl, by decide, by decide, by decide, ?_⟩
  rcases mqttEvents_cases payload r with h0 | ⟨newKp, newKd, h1⟩
  · exact Or.inl h0
  · refine Or.inr ⟨newKp, newKd, h1, ?_⟩
    simp [onlyGainAccessUnderLock, allEv, heldAfter, Ev.isGainAccess]

theorem lock_held_across_output_witness :
    (101 + 2 ^ 32 - 0) % 2 ^ 32 > mqttPublishIntervalMs ∧
    outputOnlyUnderLock (newEvents Robot.init (MQTTTaskCode_publish 101 0 Robot.init).2) = true :=
  ⟨by decide, (lock_held_across_output 101 0 [] Robot.init (by decide)).2.1⟩

end SelfBalancingRobot
